import Mathlib

/-!
Shallow embedding of the multi-source consensus engine of the
yardi_ai_research_system (files ai_orchestrator.py and ai_research_system.py).
Python dicts are embedded as association lists keyed by strings, Python
numbers as rationals, and the Python truthiness and dict.get semantics are
reproduced explicitly.  All definitions are translated from the source files;
definitions whose names start with claim_ restate a formula from the
natural-language specification for comparison against the code.
-/

namespace Prism

/-- A value appearing in a model's JSON response payload. -/
inductive JValue where
  | s (v : String)
  | n (v : ℚ)
  | b (v : Bool)
  | l (v : List String)
  deriving DecidableEq, Repr

/-- A Python dict with string keys, as an association list in insertion order. -/
abbrev RDict := List (String × JValue)

/-- Python membership test: key in result. -/
def hasKey (r : RDict) (k : String) : Bool := r.any (fun p => p.1 = k)

/-- First binding of a key, if present. -/
def lookupKey (r : RDict) (k : String) : Option JValue :=
  (r.find? (fun p => p.1 = k)).map (fun p => p.2)

/-- Python truthiness of a JSON value. -/
def truthy : JValue → Bool
  | .s v => v ≠ ""
  | .n v => v ≠ 0
  | .b v => v
  | .l v => !v.isEmpty

/-- Python isinstance check against (int, float): booleans count as ints. -/
def toNum? : JValue → Option ℚ
  | .n v => some v
  | .b v => some (if v then 1 else 0)
  | _ => none

/-- Nested result.get chain: the first PRESENT key wins, even with a falsy
value, mirroring result.get(k1, result.get(k2, ...)). -/
def chainGet (r : RDict) : List String → Option JValue
  | [] => none
  | k :: ks =>
    match lookupKey r k with
    | some v => some v
    | none => chainGet r ks

/-- One entry of config["models"]: a configured source. -/
structure ModelConfig where
  name : String
  enabled : Bool
  api_key : String
  weight : ℚ
  tasks : List String
  deriving DecidableEq, Repr

/-- The configuration is the ordered list of configured sources. -/
abbrev Config := List ModelConfig

/-- config["models"][name]["weight"] lookup. -/
def weightOf (cfg : Config) (n : String) : ℚ :=
  ((cfg.find? (fun c => c.name = n)).map (fun c => c.weight)).getD 0

/-- config["models"][name]["tasks"] lookup. -/
def tasksOf (cfg : Config) (n : String) : List String :=
  ((cfg.find? (fun c => c.name = n)).map (fun c => c.tasks)).getD []

/-- The placeholder API key the orchestrator treats as absent. -/
def placeholderKey (n : String) : String := "your-" ++ n ++ "-api-key"

/-- The four provider names the setup_models dispatch recognises. -/
def knownModels : List String := ["openai", "claude", "gemini", "deepseek"]

/-- setup_models: the names registered in self.models — configured sources
that are enabled, whose api_key is not the placeholder, and whose name is one
of the four recognised providers. -/
def setup_models (cfg : Config) : List String :=
  (cfg.filter (fun c =>
    c.enabled && c.api_key ≠ placeholderKey c.name && knownModels.contains c.name)).map
    (fun c => c.name)

/-- Python max(l, key=snd) on a nonempty list: left fold keeping the first
element attaining the maximal second component. -/
def pyMax {α : Type} (l : List (α × ℚ)) : Option (α × ℚ) :=
  match l with
  | [] => none
  | x :: xs => some (xs.foldl (fun best y => if best.2 < y.2 then y else best) x)

/-- Inner alias loop of build_contact_consensus: the first alias key that is
present with a truthy value wins, later aliases are not consulted. -/
def firstTruthyAlias (r : RDict) : List String → Option JValue
  | [] => none
  | k :: ks =>
    match lookupKey r k with
    | some v => if truthy v then some v else firstTruthyAlias r ks
    | none => firstTruthyAlias r ks

/-- The (value, weight) pairs collected for one canonical contact field. -/
def field_responses (cfg : Config) (results : List (String × RDict))
    (aliases : List String) : List (JValue × ℚ) :=
  results.filterMap (fun p =>
    (firstTruthyAlias p.2 aliases).map (fun v => (v, weightOf cfg p.1)))

/-- consensus[field] = max(responses, key=weight)[0] when responses is
nonempty, else None. -/
def fieldConsensus (cfg : Config) (results : List (String × RDict))
    (aliases : List String) : Option JValue :=
  (pyMax (field_responses cfg results aliases)).map (fun p => p.1)

/-- Confidence lookup of build_contact_consensus, defaulting to 50. -/
def contactConfLookup (r : RDict) : JValue :=
  (chainGet r ["confidence_score", "confidence", "confidence_level"]).getD (.n 50)

/-- The conf * weight terms kept by a consensus loop: one term per result
whose confidence lookup (under f) is numeric. -/
def conf_weighted_terms (cfg : Config) (results : List (String × RDict))
    (f : RDict → JValue) : List ℚ :=
  results.filterMap (fun p =>
    (toNum? (f p.2)).map (fun q => q * weightOf cfg p.1))

/-- The list of conf_score * weight terms kept by build_contact_consensus
(only numeric confidence values contribute). -/
def contact_confidence_scores (cfg : Config)
    (results : List (String × RDict)) : List ℚ :=
  conf_weighted_terms cfg results contactConfLookup

/-- sum of config weights over the contributing results. -/
def total_result_weight (cfg : Config) (results : List (String × RDict)) : ℚ :=
  (results.map (fun p => weightOf cfg p.1)).sum

/-- The consensus record returned by build_contact_consensus. -/
structure ContactConsensus where
  job_title : Option JValue
  department : Option JValue
  email : Option JValue
  linkedin : Option JValue
  phone : Option JValue
  seniority_level : Option JValue
  decision_maker_level : Option JValue
  confidence_score : ℚ
  consensus_strength : ℚ
  deriving DecidableEq, Repr

/-- build_contact_consensus: field-wise first-truthy-alias collection, then
max-by-weight per field; weighted confidence normalised by the total weight of
all contributing results; consensus_strength = len(results) / len(self.models),
where models is the registered model list. -/
def build_contact_consensus (cfg : Config) (models : List String)
    (results : List (String × RDict)) : ContactConsensus :=
  { job_title := fieldConsensus cfg results ["job_title", "probable_title", "title"]
    department := fieldConsensus cfg results ["department"]
    email := fieldConsensus cfg results ["email", "email_estimate", "email_address"]
    linkedin := fieldConsensus cfg results ["linkedin", "linkedin_url", "linkedin_profile_url"]
    phone := fieldConsensus cfg results ["phone", "phone_number"]
    seniority_level := fieldConsensus cfg results ["seniority_level", "seniority"]
    decision_maker_level := fieldConsensus cfg results ["decision_maker_level", "decision_authority"]
    confidence_score :=
      if contact_confidence_scores cfg results ≠ [] then
        (contact_confidence_scores cfg results).sum / total_result_weight cfg results
      else 0
    consensus_strength := (results.length : ℚ) / (models.length : ℚ) }

/-! ### build_email_consensus -/

/-- is_valid_format lookup chain of build_email_consensus, defaulting False. -/
def emailValidLookup (r : RDict) : JValue :=
  (chainGet r ["is_valid_format", "valid_format", "format_valid"]).getD (.b false)

/-- business_likelihood lookup chain, defaulting 50. -/
def likelihoodLookup (r : RDict) : JValue :=
  (chainGet r ["business_likelihood", "business_probability"]).getD (.n 50)

/-- alternative email lookup chain, defaulting to the empty list; non-list
values contribute nothing. -/
def altLookup (r : RDict) : List String :=
  match (chainGet r ["alternative_patterns", "alternative_formats", "alternative_emails"]).getD (.l []) with
  | .l xs => xs
  | _ => []

/-- Add the elements of a list to an insertion-ordered duplicate-free
accumulator (set.update). -/
def insertAll (acc : List String) (xs : List String) : List String :=
  xs.foldl (fun a x => if a.contains x then a else a ++ [x]) acc

/-- valid_votes: total weight of results whose validity lookup is truthy. -/
def valid_votes (cfg : Config) (results : List (String × RDict)) : ℚ :=
  (results.map (fun p =>
    if truthy (emailValidLookup p.2) then weightOf cfg p.1 else 0)).sum

/-- total_weight accumulated across the loop of build_email_consensus. -/
def email_total_weight (cfg : Config) (results : List (String × RDict)) : ℚ :=
  results.foldl (fun acc p => acc + weightOf cfg p.1) 0

/-- likelihood * weight terms kept by build_email_consensus. -/
def likelihood_scores (cfg : Config) (results : List (String × RDict)) : List ℚ :=
  conf_weighted_terms cfg results likelihoodLookup

/-- alternative_emails accumulated as a set across the loop. -/
def alt_emails (results : List (String × RDict)) : List String :=
  results.foldl (fun acc p => insertAll acc (altLookup p.2)) []

/-- The consensus record returned by build_email_consensus. -/
structure EmailConsensus where
  is_valid_format : Bool
  business_likelihood : ℚ
  alternative_emails : List String
  consensus_confidence : ℚ
  deriving DecidableEq, Repr

/-- build_email_consensus: weighted-majority validity vote over the weight
present, weighted likelihood mean, union of alternatives, and a
consensus_confidence that divides the accumulated total weight by the sum of
the same results' configured weights. -/
def build_email_consensus (cfg : Config) (results : List (String × RDict)) :
    EmailConsensus :=
  let tw := email_total_weight cfg results
  { is_valid_format := if 0 < tw then decide (1 / 2 < valid_votes cfg results / tw) else false
    business_likelihood := if 0 < tw then (likelihood_scores cfg results).sum / tw else 0
    alternative_emails := alt_emails results
    consensus_confidence := tw / total_result_weight cfg results }

/-! ### build_company_consensus -/

/-- Alias chains used by build_company_consensus. -/
def industryKeys : List String := ["industry_type", "industry", "industry_classification"]

def sizeKeys : List String := ["company_size", "size_estimate"]

def painKeys : List String := ["pain_points", "business_challenges", "key_challenges"]

def oppKeys : List String := ["yardi_opportunities", "consulting_opportunities"]

def titleKeys : List String := ["target_titles", "target_decision_makers", "decision_maker_roles", "key_decision_makers"]

def websiteKeys : List String := ["website_url", "website", "website_estimate"]

def linkedinKeys : List String := ["linkedin_company_url", "linkedin_company", "linkedin_page"]

/-- List-valued alias lookup, defaulting to the empty list; non-list values
contribute nothing to the set union. -/
def listLookup (r : RDict) (ks : List String) : List String :=
  match (chainGet r ks).getD (.l []) with
  | .l xs => xs
  | _ => []

/-- dict-of-votes update votes[v] = votes.get(v, 0) + w, keys kept in
insertion order. -/
def addVote (votes : List (JValue × ℚ)) (v : JValue) (w : ℚ) : List (JValue × ℚ) :=
  if votes.any (fun p => p.1 = v) then
    votes.map (fun p => if p.1 = v then (p.1, p.2 + w) else p)
  else votes ++ [(v, w)]

/-- The vote dictionary built for a scalar company field: each result whose
alias chain yields a truthy value adds its weight to that value's tally. -/
def scalar_votes (cfg : Config) (results : List (String × RDict))
    (ks : List String) : List (JValue × ℚ) :=
  results.foldl (fun votes p =>
    match chainGet p.2 ks with
    | some v => if truthy v then addVote votes v (weightOf cfg p.1) else votes
    | none => votes) []

/-- De-duplicated union of the list-valued field across all results, in
insertion order. -/
def union_lists (results : List (String × RDict)) (ks : List String) : List String :=
  results.foldl (fun acc p => insertAll acc (listLookup p.2 ks)) []

/-- The truthy values appended, in result order, for website/linkedin fields. -/
def collected_values (results : List (String × RDict)) (ks : List String) :
    List JValue :=
  results.filterMap (fun p =>
    match chainGet p.2 ks with
    | some v => if truthy v then some v else none
    | none => none)

/-- Confidence lookup chain of build_company_consensus, defaulting 50. -/
def companyConfLookup (r : RDict) : JValue :=
  (chainGet r ["confidence_score", "confidence"]).getD (.n 50)

/-- conf * weight terms kept by build_company_consensus. -/
def company_confidence_scores (cfg : Config)
    (results : List (String × RDict)) : List ℚ :=
  conf_weighted_terms cfg results companyConfLookup

/-- The consensus record returned by build_company_consensus. -/
structure CompanyConsensus where
  industry_type : JValue
  company_size : JValue
  pain_points : List String
  yardi_opportunities : List String
  target_decision_makers : List String
  website_url : Option JValue
  linkedin_company_url : Option JValue
  confidence_score : ℚ
  deriving DecidableEq, Repr

/-- build_company_consensus: weighted-plurality votes for industry and size,
capped set unions for the list fields, first collected value for website and
linkedin, and a confidence sum divided by len(results). -/
def build_company_consensus (cfg : Config) (results : List (String × RDict)) :
    CompanyConsensus :=
  { industry_type :=
      ((pyMax (scalar_votes cfg results industryKeys)).map (fun p => p.1)).getD (.s "Other")
    company_size :=
      ((pyMax (scalar_votes cfg results sizeKeys)).map (fun p => p.1)).getD (.s "Unknown")
    pain_points := (union_lists results painKeys).take 5
    yardi_opportunities := (union_lists results oppKeys).take 3
    target_decision_makers := (union_lists results titleKeys).take 5
    website_url := (collected_values results websiteKeys).head?
    linkedin_company_url := (collected_values results linkedinKeys).head?
    confidence_score :=
      if company_confidence_scores cfg results ≠ [] then
        (company_confidence_scores cfg results).sum / (results.length : ℚ)
      else 0 }

/-! ### Adapter boundary and fan-out coordinator -/

/-- The outcome the coordinator sees for one adapter call: either a raised
exception captured by asyncio.gather(return_exceptions=True) or the dict the
adapter returned. -/
inductive AdapterOutcome where
  | exn (msg : String)
  | response (r : RDict)
  deriving DecidableEq, Repr

/-- The per-source entry recorded in model_responses. -/
def outcome_record : AdapterOutcome → RDict
  | .exn m => [("error", .s m)]
  | .response r => r

/-- An outcome counts as valid when it is a dict without an error key. -/
def valid_of (p : String × AdapterOutcome) : Option (String × RDict) :=
  match p.2 with
  | .exn _ => none
  | .response r => if hasKey r "error" then none else some (p.1, r)

/-- The models registered for contact research: registered models whose
configured task list contains contact_research. -/
def contact_eligible (cfg : Config) : List String :=
  (setup_models cfg).filter (fun n => (tasksOf cfg n).contains "contact_research")

/-- The result of research_contact_consensus: the two distinct error returns
of the source, or a consensus together with model_responses and models_used. -/
inductive ContactResearchResult where
  | error_no_models
  | error_no_valid (model_responses : List (String × RDict))
  | consensus (c : ContactConsensus) (model_responses : List (String × RDict))
      (models_used : List String)
  deriving DecidableEq, Repr

/-- research_contact_consensus, with the concurrent batch represented by the
per-source outcome function call: selects eligible models, returns the
no-models error when none, records every outcome, filters valid results, and
returns the no-valid-responses error (with all per-source records) or the
consensus built from the valid results. -/
def research_contact_consensus (cfg : Config) (call : String → AdapterOutcome) :
    ContactResearchResult :=
  let enabled := contact_eligible cfg
  if enabled.isEmpty then .error_no_models
  else
    let outcomes := enabled.map (fun n => (n, call n))
    let responses := outcomes.map (fun p => (p.1, outcome_record p.2))
    let valid := outcomes.filterMap valid_of
    if valid.isEmpty then .error_no_valid responses
    else
      .consensus (build_contact_consensus cfg (setup_models cfg) valid) responses
        (valid.map (fun p => p.1))

/-- The model_responses attached to a research result, when any: both the
all-failed error and the consensus return carry the full per-source records. -/
def result_responses : ContactResearchResult → Option (List (String × RDict))
  | .error_no_models => none
  | .error_no_valid rs => some rs
  | .consensus _ rs _ => some rs

/-- Overwrite-or-append assignment result[k] = v. -/
def setKey (r : RDict) (k : String) (v : JValue) : RDict :=
  if hasKey r k then r.map (fun p => if p.1 = k then (k, v) else p)
  else r ++ [(k, v)]

/-- OpenAIModel._make_request: a transport failure is caught and returned as
an error dict; a transport success returns the parsed HTTP JSON body. -/
def make_request (transport : Except String RDict) : RDict :=
  match transport with
  | .ok r => r
  | .error e => [("error", .s e)]

/-- OpenAIModel.research_contact around _make_request: an error response is
passed through; otherwise the content is parsed, a parse failure is caught
and returned as a Parse error dict, and a parse success is tagged with the
model name.  The parse step (JSON extraction from the response body) is the
function parameter. -/
def adapter_research_contact (transport : Except String RDict)
    (parse : RDict → Except String RDict) (model_name : String) : RDict :=
  let response := make_request transport
  if hasKey response "error" then response
  else
    match parse response with
    | .ok result => setKey result "model" (.s ("OpenAI " ++ model_name))
    | .error e => [("error", .s ("Parse error: " ++ e))]

/-! ### Formulas restated from the specification, for comparison with the code -/

/-- The weighted-plurality rule the specification states for scalar fields:
group by distinct value summing weights, pick the largest summed weight,
first-encountered insertion order on ties. -/
def claim_weighted_plurality (l : List (JValue × ℚ)) : Option JValue :=
  (pyMax (l.foldl (fun votes p => addVote votes p.1 p.2) [])).map (fun p => p.1)

/-- The confidence aggregate the specification states: weighted mean
normalised by the sum of weights of exactly the opinions that supplied a
numeric confidence value. -/
def claim_weighted_mean_confidence (cfg : Config)
    (results : List (String × RDict)) (f : RDict → JValue) : ℚ :=
  (conf_weighted_terms cfg results f).sum /
    (results.filterMap (fun p =>
      (toNum? (f p.2)).map (fun _ => weightOf cfg p.1))).sum

/-! ### Concrete fixtures -/

/-- A configured source enabled with a genuine key and all three tasks. -/
def mkModel (n : String) (w : ℚ) : ModelConfig :=
  { name := n, enabled := true, api_key := n ++ "-key", weight := w,
    tasks := ["contact_research", "email_verification", "company_analysis"] }

/-- Three enabled sources with weights 0.3, 0.5, 0.2. -/
def cfg3 : Config := [mkModel "openai" (3/10), mkModel "claude" (1/2), mkModel "gemini" (1/5)]

/-- Opinions A, B, A about job_title (and industry_type) from the three
sources, matching the worked example of the specification. -/
def rsABA : List (String × RDict) :=
  [("openai", [("job_title", .s "A"), ("industry_type", .s "A")]),
   ("claude", [("job_title", .s "B"), ("industry_type", .s "B")]),
   ("gemini", [("job_title", .s "A"), ("industry_type", .s "A")])]

/-- A single claude opinion with confidence 80 about a company. -/
def rsC2 : List (String × RDict) :=
  [("claude", [("industry_type", .s "REIT"), ("confidence_score", .n 80)])]

/-- Four configured sources of which only two are usable: gemini is disabled
and deepseek still has the placeholder API key. -/
def cfgC3 : Config :=
  [mkModel "openai" (3/10), mkModel "claude" (3/10),
   { mkModel "gemini" (1/5) with enabled := false },
   { mkModel "deepseek" (1/5) with api_key := placeholderKey "deepseek" }]

/-- Two valid results for the partially-configured cfgC3. -/
def rsC3 : List (String × RDict) :=
  [("openai", [("job_title", .s "Director")]), ("claude", [("job_title", .s "Director")])]

/-- Two website opinions in one order and the other. -/
def rsW1 : List (String × RDict) :=
  [("openai", [("website_url", .s "w1")]), ("claude", [("website_url", .s "w2")])]

def rsW2 : List (String × RDict) :=
  [("claude", [("website_url", .s "w2")]), ("openai", [("website_url", .s "w1")])]

/-- A configuration whose only usable source is not registered for any task. -/
def cfgNoTask : Config :=
  [{ mkModel "openai" (3/10) with tasks := [] }]

/-- An adapter-call oracle on which every source raises. -/
def callFail : String → AdapterOutcome := fun _ => .exn "boom"

/-- Three boolean email-verification votes: true (0.3), true (0.5), false (0.2). -/
def rsEmail : List (String × RDict) :=
  [("openai", [("is_valid_format", .b true)]),
   ("claude", [("valid_format", .b true)]),
   ("gemini", [("format_valid", .b false)])]

/-- The raw payload of the alias-resolution example in the specification. -/
def rVP : RDict := [("probable_title", .s "VP Sales"), ("title", .s "Director")]

/-- Two company opinions contributing overlapping pain-point lists. -/
def rsPain : List (String × RDict) :=
  [("openai", [("pain_points", .l ["p1", "p2"]), ("yardi_opportunities", .l ["o1"]),
     ("target_titles", .l ["t1", "t2"])]),
   ("claude", [("business_challenges", .l ["p2", "p3"]), ("consulting_opportunities", .l ["o2"]),
     ("target_decision_makers", .l ["t2", "t3"])])]

/-! ### Helper lemmas -/

/-- The fold of the Python max pattern returns an element of the list. -/
lemma foldl_argmax_mem {α : Type} (xs : List (α × ℚ)) (b : α × ℚ) :
    xs.foldl (fun best y => if best.2 < y.2 then y else best) b ∈ b :: xs := by
  induction xs generalizing b with
  | nil => simp
  | cons y ys ih =>
    simp only [List.foldl_cons]
    by_cases hb : b.2 < y.2
    · rw [if_pos hb]
      rcases List.mem_cons.mp (ih y) with h | h
      · rw [h]
        exact List.mem_cons_of_mem _ (List.mem_cons_self _ _)
      · exact List.mem_cons_of_mem _ (List.mem_cons_of_mem _ h)
    · rw [if_neg hb]
      rcases List.mem_cons.mp (ih b) with h | h
      · rw [h]
        exact List.mem_cons_self _ _
      · exact List.mem_cons_of_mem _ (List.mem_cons_of_mem _ h)

/-- The fold of the Python max pattern dominates every element considered. -/
lemma foldl_argmax_le {α : Type} (xs : List (α × ℚ)) (b : α × ℚ) :
    ∀ p ∈ b :: xs, p.2 ≤ (xs.foldl (fun best y => if best.2 < y.2 then y else best) b).2 := by
  induction xs generalizing b with
  | nil =>
    intro p hp
    rcases List.mem_cons.mp hp with h | h
    · subst h; simp
    · simp at h
  | cons y ys ih =>
    intro p hp
    simp only [List.foldl_cons]
    have hb : b.2 ≤ (if b.2 < y.2 then y else b).2 := by
      by_cases h : b.2 < y.2
      · rw [if_pos h]; exact le_of_lt h
      · rw [if_neg h]
    have hy : y.2 ≤ (if b.2 < y.2 then y else b).2 := by
      by_cases h : b.2 < y.2
      · rw [if_pos h]
      · rw [if_neg h]; exact le_of_not_lt h
    have hhead := ih (if b.2 < y.2 then y else b) _ (List.mem_cons_self _ _)
    rcases List.mem_cons.mp hp with h | h
    · subst h; exact le_trans hb hhead
    · rcases List.mem_cons.mp h with h2 | h2
      · subst h2; exact le_trans hy hhead
      · exact ih (if b.2 < y.2 then y else b) p (List.mem_cons_of_mem _ h2)

/-- Python max, key = second component: the result is in the list and its key
is maximal. -/
lemma pyMax_spec {α : Type} {l : List (α × ℚ)} {m : α × ℚ} (h : pyMax l = some m) :
    m ∈ l ∧ ∀ p ∈ l, p.2 ≤ m.2 := by
  match l with
  | [] => simp [pyMax] at h
  | x :: xs =>
    simp only [pyMax, Option.some.injEq] at h
    subst h
    exact ⟨foldl_argmax_mem xs x, foldl_argmax_le xs x⟩

/-- The running total_weight accumulator equals the sum of the mapped weights. -/
lemma foldl_add_weight (cfg : Config) (l : List (String × RDict)) (a : ℚ) :
    l.foldl (fun acc p => acc + weightOf cfg p.1) a =
      a + (l.map (fun p => weightOf cfg p.1)).sum := by
  induction l generalizing a with
  | nil => simp
  | cons x xs ih => simp [List.foldl_cons, ih, add_assoc]

/-- email_total_weight coincides with total_result_weight. -/
lemma email_total_weight_eq (cfg : Config) (results : List (String × RDict)) :
    email_total_weight cfg results = total_result_weight cfg results := by
  simp [email_total_weight, total_result_weight, foldl_add_weight]

/-- Positive weights on a nonempty result list make the total weight positive. -/
lemma total_result_weight_pos (cfg : Config) (results : List (String × RDict))
    (hne : results ≠ []) (hw : ∀ p ∈ results, 0 < weightOf cfg p.1) :
    0 < total_result_weight cfg results := by
  refine List.sum_pos _ (fun x hx => ?_) ?_
  · rcases List.mem_map.mp hx with ⟨p, hp, rfl⟩
    exact hw p hp
  · simp only [ne_eq, List.map_eq_nil_iff]
    exact hne

/-- Membership in the insertAll accumulator. -/
lemma mem_insertAll (acc xs : List String) (y : String) :
    y ∈ insertAll acc xs ↔ y ∈ acc ∨ y ∈ xs := by
  induction xs generalizing acc with
  | nil => simp [insertAll]
  | cons x xs ih =>
    simp only [insertAll, List.foldl_cons] at *
    by_cases hx : acc.contains x
    · rw [if_pos hx, ih]
      have : x ∈ acc := by simpa [List.contains] using hx
      constructor
      · rintro (h | h)
        · exact Or.inl h
        · exact Or.inr (List.mem_cons_of_mem _ h)
      · rintro (h | h)
        · exact Or.inl h
        · rcases List.mem_cons.mp h with rfl | h
          · exact Or.inl this
          · exact Or.inr h
    · rw [if_neg hx, ih]
      simp only [List.mem_append, List.mem_singleton, List.mem_cons]
      tauto

/-- insertAll preserves freedom from duplicates. -/
lemma insertAll_nodup (acc xs : List String) (h : acc.Nodup) :
    (insertAll acc xs).Nodup := by
  induction xs generalizing acc with
  | nil => simpa [insertAll]
  | cons x xs ih =>
    simp only [insertAll, List.foldl_cons]
    by_cases hx : acc.contains x
    · rw [if_pos hx]
      exact ih acc h
    · rw [if_neg hx]
      refine ih _ ?_
      have hnx : x ∉ acc := by
        intro hmem
        exact hx (by simpa [List.contains] using hmem)
      simpa [List.nodup_append] using ⟨h, hnx⟩

/-- The union accumulated over the results is duplicate-free. -/
lemma union_lists_nodup (results : List (String × RDict)) (ks : List String) :
    (union_lists results ks).Nodup := by
  suffices h : ∀ acc : List String, acc.Nodup →
      (results.foldl (fun acc p => insertAll acc (listLookup p.2 ks)) acc).Nodup by
    exact h [] List.nodup_nil
  induction results with
  | nil => intro acc h; simpa
  | cons r rs ih =>
    intro acc h
    simp only [List.foldl_cons]
    exact ih _ (insertAll_nodup _ _ h)

/-- Membership in the accumulated union: exactly the elements contributed by
some result. -/
lemma mem_union_lists (results : List (String × RDict)) (ks : List String) (y : String) :
    y ∈ union_lists results ks ↔ ∃ p ∈ results, y ∈ listLookup p.2 ks := by
  suffices h : ∀ acc : List String,
      (y ∈ results.foldl (fun acc p => insertAll acc (listLookup p.2 ks)) acc ↔
        y ∈ acc ∨ ∃ p ∈ results, y ∈ listLookup p.2 ks) by
    simpa using h []
  induction results with
  | nil => intro acc; simp
  | cons r rs ih =>
    intro acc
    simp only [List.foldl_cons, ih, mem_insertAll, List.mem_cons]
    constructor
    · rintro ((h | h) | ⟨p, hp, hy⟩)
      · exact Or.inl h
      · exact Or.inr ⟨r, Or.inl rfl, h⟩
      · exact Or.inr ⟨p, Or.inr hp, hy⟩
    · rintro (h | ⟨p, rfl | hp, hy⟩)
      · exact Or.inl (Or.inl h)
      · exact Or.inl (Or.inr hy)
      · exact Or.inr ⟨p, hp, hy⟩

/-- Each retained confidence term is nonnegative when confidences and weights
are. -/
lemma conf_terms_nonneg (cfg : Config) (results : List (String × RDict))
    (f : RDict → JValue) (hw : ∀ p ∈ results, 0 ≤ weightOf cfg p.1)
    (hq : ∀ p ∈ results, ∀ q, toNum? (f p.2) = some q → 0 ≤ q) :
    0 ≤ (conf_weighted_terms cfg results f).sum := by
  refine List.sum_nonneg (fun x hx => ?_)
  rcases List.mem_filterMap.mp hx with ⟨p, hp, hmap⟩
  rcases Option.map_eq_some'.mp hmap with ⟨q, hqe, rfl⟩
  exact mul_nonneg (hq p hp q hqe) (hw p hp)

/-- The summed confidence terms are at most 100 times the total weight of all
contributing results. -/
lemma conf_terms_le_total (cfg : Config) (results : List (String × RDict))
    (f : RDict → JValue) (hw : ∀ p ∈ results, 0 ≤ weightOf cfg p.1)
    (hq : ∀ p ∈ results, ∀ q, toNum? (f p.2) = some q → q ≤ 100) :
    (conf_weighted_terms cfg results f).sum ≤ 100 * total_result_weight cfg results := by
  induction results with
  | nil => simp [conf_weighted_terms, total_result_weight]
  | cons r rs ih =>
    have hw0 : 0 ≤ weightOf cfg r.1 := hw r (List.mem_cons_self _ _)
    have ih2 := ih (fun p hp => hw p (List.mem_cons_of_mem _ hp))
      (fun p hp => hq p (List.mem_cons_of_mem _ hp))
    have htot : total_result_weight cfg (r :: rs) =
        weightOf cfg r.1 + total_result_weight cfg rs := by
      simp [total_result_weight]
    rw [htot]
    cases hopt : toNum? (f r.2) with
    | none =>
      have hterms : conf_weighted_terms cfg (r :: rs) f = conf_weighted_terms cfg rs f := by
        simp [conf_weighted_terms, List.filterMap_cons, hopt]
      rw [hterms]
      nlinarith
    | some q =>
      have hterms : (conf_weighted_terms cfg (r :: rs) f).sum =
          q * weightOf cfg r.1 + (conf_weighted_terms cfg rs f).sum := by
        simp [conf_weighted_terms, List.filterMap_cons, hopt]
      rw [hterms]
      have hq100 : q ≤ 100 := hq r (List.mem_cons_self _ _) q hopt
      nlinarith

/-- The total weight is at most the number of results when each weight is at
most one. -/
lemma total_weight_le_length (cfg : Config) (results : List (String × RDict))
    (hw : ∀ p ∈ results, weightOf cfg p.1 ≤ 1) :
    total_result_weight cfg results ≤ (results.length : ℚ) := by
  have h := List.sum_le_card_nsmul (results.map (fun p => weightOf cfg p.1)) 1
    (fun x hx => by
      rcases List.mem_map.mp hx with ⟨p, hp, rfl⟩
      exact hw p hp)
  simpa [total_result_weight, nsmul_eq_mul] using h

/-- No results, no retained confidence terms. -/
lemma conf_terms_ne_nil_of (cfg : Config) (results : List (String × RDict))
    (f : RDict → JValue) (h : conf_weighted_terms cfg results f ≠ []) :
    results ≠ [] := by
  intro hr
  subst hr
  exact h rfl

/-- Specification of a capped de-duplicated union: no duplicates, bounded
length, soundness of membership, and completeness when the whole union fits
under the cap. -/
lemma capped_union_spec (results : List (String × RDict)) (ks : List String) (n : ℕ) :
    ((union_lists results ks).take n).Nodup ∧
    ((union_lists results ks).take n).length ≤ n ∧
    (∀ x ∈ (union_lists results ks).take n, ∃ p ∈ results, x ∈ listLookup p.2 ks) ∧
    ((union_lists results ks).length ≤ n →
      ∀ p ∈ results, ∀ x ∈ listLookup p.2 ks, x ∈ (union_lists results ks).take n) := by
  refine ⟨?_, ?_, ?_, ?_⟩
  · exact (List.take_sublist n _).nodup (union_lists_nodup results ks)
  · rw [List.length_take]
    exact min_le_left _ _
  · intro x hx
    exact (mem_union_lists results ks x).mp ((List.take_sublist n _).subset hx)
  · intro hlen p hp x hx
    rw [List.take_of_length_le hlen]
    exact (mem_union_lists results ks x).mpr ⟨p, hp, hx⟩

/-- The three cfg3 weights are in (0,1] for the email fixture results. -/
lemma rsEmail_weights : ∀ p ∈ rsEmail, 0 < weightOf cfg3 p.1 ∧ weightOf cfg3 p.1 ≤ 1 := by
  intro p hp
  simp only [rsEmail, List.mem_cons, List.not_mem_nil, or_false] at hp
  rcases hp with rfl | rfl | rfl
  · have h : weightOf cfg3 "openai" = 3/10 := rfl
    rw [h]
    constructor <;> norm_num
  · have h : weightOf cfg3 "claude" = 1/2 := rfl
    rw [h]
    constructor <;> norm_num
  · have h : weightOf cfg3 "gemini" = 1/5 := rfl
    rw [h]
    constructor <;> norm_num

/-! ### Claims -/

/-- C1 counterexample: with opinions A (weight 0.3), B (weight 0.5),
A (weight 0.2) on job_title, build_contact_consensus picks B — the single
highest-weight opinion — while the weighted plurality stated by the claim
picks A; so scalar contact fields are not resolved by weighted plurality. -/
theorem C1_counterexample :
    (build_contact_consensus cfg3 (setup_models cfg3) rsABA).job_title = some (.s "B") ∧
    claim_weighted_plurality
      (field_responses cfg3 rsABA ["job_title", "probable_title", "title"]) = some (.s "A") ∧
    (build_contact_consensus cfg3 (setup_models cfg3) rsABA).job_title ≠ some (.s "A") := by
  have h : field_responses cfg3 rsABA ["job_title", "probable_title", "title"] =
      [(.s "A", 3/10), (.s "B", 1/2), (.s "A", 1/5)] := rfl
  have hjob : (build_contact_consensus cfg3 (setup_models cfg3) rsABA).job_title =
      some (.s "B") := by
    show fieldConsensus cfg3 rsABA ["job_title", "probable_title", "title"] = some (.s "B")
    rw [fieldConsensus, h]
    norm_num [pyMax]
  refine ⟨hjob, ?_, by rw [hjob]; simp⟩
  rw [claim_weighted_plurality, h]
  simp +decide [pyMax, addVote]
  norm_num

/-- C1 amended: weighted plurality with first-encountered tie-break holds only
for the company scalar fields (industry_type, company_size), whose vote
dictionaries sum weights per distinct value and whose winner has maximal
summed weight; scalar contact fields such as job_title instead take the value
of the single contributing opinion with maximal individual source weight.  On
the A/B/A example the company industry vote does pick A. -/
theorem C1_theorem :
    (∀ (cfg : Config) (results : List (String × RDict)) (m : JValue × ℚ),
      pyMax (scalar_votes cfg results industryKeys) = some m →
      (build_company_consensus cfg results).industry_type = m.1 ∧
      m ∈ scalar_votes cfg results industryKeys ∧
      ∀ p ∈ scalar_votes cfg results industryKeys, p.2 ≤ m.2) ∧
    (∀ (cfg : Config) (results : List (String × RDict)) (m : JValue × ℚ),
      pyMax (scalar_votes cfg results sizeKeys) = some m →
      (build_company_consensus cfg results).company_size = m.1 ∧
      m ∈ scalar_votes cfg results sizeKeys ∧
      ∀ p ∈ scalar_votes cfg results sizeKeys, p.2 ≤ m.2) ∧
    (∀ (cfg : Config) (models : List String) (results : List (String × RDict))
      (m : JValue × ℚ),
      pyMax (field_responses cfg results ["job_title", "probable_title", "title"]) = some m →
      (build_contact_consensus cfg models results).job_title = some m.1 ∧
      m ∈ field_responses cfg results ["job_title", "probable_title", "title"] ∧
      ∀ p ∈ field_responses cfg results ["job_title", "probable_title", "title"], p.2 ≤ m.2) ∧
    (build_company_consensus cfg3 rsABA).industry_type = .s "A" := by
  refine ⟨?_, ?_, ?_, ?_⟩
  · intro cfg results m h
    exact ⟨by simp [build_company_consensus, h], (pyMax_spec h).1, (pyMax_spec h).2⟩
  · intro cfg results m h
    exact ⟨by simp [build_company_consensus, h], (pyMax_spec h).1, (pyMax_spec h).2⟩
  · intro cfg models results m h
    exact ⟨by simp [build_contact_consensus, fieldConsensus, h], (pyMax_spec h).1,
      (pyMax_spec h).2⟩
  · have hv : scalar_votes cfg3 rsABA industryKeys =
        [(.s "A", 3/10 + 1/5), (.s "B", 1/2)] := rfl
    show ((pyMax (scalar_votes cfg3 rsABA industryKeys)).map (fun p => p.1)).getD (.s "Other") =
      .s "A"
    rw [hv]
    norm_num [pyMax]

/-- C1 witness: the amended plurality property instantiated on the concrete
A/B/A industry vote, whose winner is A with summed weight 0.5. -/
theorem C1_witness :
    (build_company_consensus cfg3 rsABA).industry_type = .s "A" ∧
    (JValue.s "A", (3:ℚ)/10 + 1/5) ∈ scalar_votes cfg3 rsABA industryKeys ∧
    ∀ p ∈ scalar_votes cfg3 rsABA industryKeys, p.2 ≤ 3/10 + 1/5 := by
  have hv : scalar_votes cfg3 rsABA industryKeys =
      [(.s "A", 3/10 + 1/5), (.s "B", 1/2)] := rfl
  have hm : pyMax (scalar_votes cfg3 rsABA industryKeys) =
      some (.s "A", 3/10 + 1/5) := by
    rw [hv]
    norm_num [pyMax]
  have h := C1_theorem.1 cfg3 rsABA (.s "A", 3/10 + 1/5) hm
  exact ⟨h.1, h.2.1, h.2.2⟩

/-- C2 counterexample: a single claude opinion (weight 0.5) with its own
confidence 80 gives company consensus confidence 40 — build_company_consensus
divides the weighted sum by the COUNT of results — while the weighted mean
normalised by the weights of the numeric-confidence opinions, as the claim
states, is 80. -/
theorem C2_counterexample :
    (build_company_consensus cfg3 rsC2).confidence_score = 40 ∧
    claim_weighted_mean_confidence cfg3 rsC2 companyConfLookup = 80 ∧
    (build_company_consensus cfg3 rsC2).confidence_score ≠
      claim_weighted_mean_confidence cfg3 rsC2 companyConfLookup := by
  have hterms : company_confidence_scores cfg3 rsC2 = [80 * (1/2)] := rfl
  have h1 : (build_company_consensus cfg3 rsC2).confidence_score = 40 := by
    show (if company_confidence_scores cfg3 rsC2 ≠ [] then
      (company_confidence_scores cfg3 rsC2).sum / ((rsC2.length : ℕ) : ℚ) else 0) = 40
    rw [hterms]
    norm_num [rsC2]
  have h2 : claim_weighted_mean_confidence cfg3 rsC2 companyConfLookup = 80 := by
    have hn : (rsC2.filterMap (fun p =>
        (toNum? (companyConfLookup p.2)).map (fun _ => weightOf cfg3 p.1))) = [1/2] := rfl
    rw [claim_weighted_mean_confidence]
    show (conf_weighted_terms cfg3 rsC2 companyConfLookup).sum / _ = 80
    have ht : conf_weighted_terms cfg3 rsC2 companyConfLookup = [80 * (1/2)] := rfl
    rw [ht, hn]
    norm_num
  exact ⟨h1, h2, by rw [h1, h2]; norm_num⟩

/-- C2 amended: the contact consensus confidence is the weighted confidence
sum divided by the total configured weight of ALL contributing opinions (an
absent confidence defaults to 50; an opinion with a non-numeric confidence
still counts in the denominator), and the company consensus confidence is the
weighted sum divided by the COUNT of contributing opinions; both lie in
[0,100] whenever every numeric confidence lies in [0,100] and every weight in
(0,1]. -/
theorem C2_theorem (cfg : Config) (models : List String)
    (results : List (String × RDict))
    (hw : ∀ p ∈ results, 0 < weightOf cfg p.1 ∧ weightOf cfg p.1 ≤ 1)
    (hc1 : ∀ p ∈ results, ∀ q, toNum? (contactConfLookup p.2) = some q → 0 ≤ q ∧ q ≤ 100)
    (hc2 : ∀ p ∈ results, ∀ q, toNum? (companyConfLookup p.2) = some q → 0 ≤ q ∧ q ≤ 100) :
    (contact_confidence_scores cfg results ≠ [] →
      (build_contact_consensus cfg models results).confidence_score =
        (contact_confidence_scores cfg results).sum / total_result_weight cfg results) ∧
    (company_confidence_scores cfg results ≠ [] →
      (build_company_consensus cfg results).confidence_score =
        (company_confidence_scores cfg results).sum / (results.length : ℚ)) ∧
    (0 ≤ (build_contact_consensus cfg models results).confidence_score ∧
      (build_contact_consensus cfg models results).confidence_score ≤ 100) ∧
    (0 ≤ (build_company_consensus cfg results).confidence_score ∧
      (build_company_consensus cfg results).confidence_score ≤ 100) := by
  have hw0 : ∀ p ∈ results, 0 ≤ weightOf cfg p.1 := fun p hp => (hw p hp).1.le
  have hw1 : ∀ p ∈ results, weightOf cfg p.1 ≤ 1 := fun p hp => (hw p hp).2
  refine ⟨?_, ?_, ?_, ?_⟩
  · intro h
    simp [build_contact_consensus, h]
  · intro h
    simp [build_company_consensus, h]
  · by_cases hcs : contact_confidence_scores cfg results = []
    · constructor <;> simp [build_contact_consensus, hcs]
    · have hne : results ≠ [] := conf_terms_ne_nil_of cfg results contactConfLookup hcs
      have htw : 0 < total_result_weight cfg results :=
        total_result_weight_pos cfg results hne (fun p hp => (hw p hp).1)
      have h0 : 0 ≤ (contact_confidence_scores cfg results).sum :=
        conf_terms_nonneg cfg results contactConfLookup hw0
          (fun p hp q hq => (hc1 p hp q hq).1)
      have h100 : (contact_confidence_scores cfg results).sum ≤
          100 * total_result_weight cfg results :=
        conf_terms_le_total cfg results contactConfLookup hw0
          (fun p hp q hq => (hc1 p hp q hq).2)
      have hsc : (build_contact_consensus cfg models results).confidence_score =
          (contact_confidence_scores cfg results).sum / total_result_weight cfg results := by
        simp [build_contact_consensus, hcs]
      rw [hsc]
      constructor
      · exact div_nonneg h0 htw.le
      · rw [div_le_iff₀ htw]
        linarith
  · by_cases hcs : company_confidence_scores cfg results = []
    · constructor <;> simp [build_company_consensus, hcs]
    · have hne : results ≠ [] := conf_terms_ne_nil_of cfg results companyConfLookup hcs
      have hlen : 0 < (results.length : ℚ) := by
        have : 0 < results.length := List.length_pos.mpr hne
        exact_mod_cast this
      have h0 : 0 ≤ (company_confidence_scores cfg results).sum :=
        conf_terms_nonneg cfg results companyConfLookup hw0
          (fun p hp q hq => (hc2 p hp q hq).1)
      have h100 : (company_confidence_scores cfg results).sum ≤
          100 * total_result_weight cfg results :=
        conf_terms_le_total cfg results companyConfLookup hw0
          (fun p hp q hq => (hc2 p hp q hq).2)
      have hle : total_result_weight cfg results ≤ (results.length : ℚ) :=
        total_weight_le_length cfg results hw1
      have hsc : (build_company_consensus cfg results).confidence_score =
          (company_confidence_scores cfg results).sum / (results.length : ℚ) := by
        simp [build_company_consensus, hcs]
      rw [hsc]
      constructor
      · exact div_nonneg h0 hlen.le
      · rw [div_le_iff₀ hlen]
        nlinarith

/-- C2 witness: the amended confidence bounds instantiated on the single
confidence-80 claude opinion. -/
theorem C2_witness :
    0 ≤ (build_company_consensus cfg3 rsC2).confidence_score ∧
    (build_company_consensus cfg3 rsC2).confidence_score ≤ 100 := by
  have hw : ∀ p ∈ rsC2, 0 < weightOf cfg3 p.1 ∧ weightOf cfg3 p.1 ≤ 1 := by
    intro p hp
    rcases List.mem_singleton.mp hp with rfl
    have hwc : weightOf cfg3 "claude" = 1/2 := rfl
    rw [hwc]
    constructor <;> norm_num
  have hc1 : ∀ p ∈ rsC2, ∀ q, toNum? (contactConfLookup p.2) = some q → 0 ≤ q ∧ q ≤ 100 := by
    intro p hp q hq
    rcases List.mem_singleton.mp hp with rfl
    have : contactConfLookup ([("industry_type", JValue.s "REIT"),
        ("confidence_score", JValue.n 80)] : RDict) = .n 80 := rfl
    rw [this] at hq
    simp only [toNum?, Option.some.injEq] at hq
    subst hq
    norm_num
  have hc2 : ∀ p ∈ rsC2, ∀ q, toNum? (companyConfLookup p.2) = some q → 0 ≤ q ∧ q ≤ 100 := by
    intro p hp q hq
    rcases List.mem_singleton.mp hp with rfl
    have : companyConfLookup ([("industry_type", JValue.s "REIT"),
        ("confidence_score", JValue.n 80)] : RDict) = .n 80 := rfl
    rw [this] at hq
    simp only [toNum?, Option.some.injEq] at hq
    subst hq
    norm_num
  exact (C2_theorem cfg3 (setup_models cfg3) rsC2 hw hc1 hc2).2.2.2

/-- C3 counterexample: with four configured sources of which only two are
registered (one disabled, one with a placeholder key), two contributing
opinions give consensus_strength 2/2 = 1, not the 2/4 the claim's
all-configured-sources denominator would give. -/
theorem C3_counterexample :
    cfgC3.length = 4 ∧
    setup_models cfgC3 = ["openai", "claude"] ∧
    (build_contact_consensus cfgC3 (setup_models cfgC3) rsC3).consensus_strength = 1 ∧
    (build_contact_consensus cfgC3 (setup_models cfgC3) rsC3).consensus_strength ≠
      (rsC3.length : ℚ) / (cfgC3.length : ℚ) := by
  have hs : (build_contact_consensus cfgC3 (setup_models cfgC3) rsC3).consensus_strength =
      ((2 : ℕ) : ℚ) / ((2 : ℕ) : ℚ) := rfl
  have h1 : (build_contact_consensus cfgC3 (setup_models cfgC3) rsC3).consensus_strength = 1 := by
    rw [hs]
    norm_num
  refine ⟨rfl, rfl, h1, ?_⟩
  rw [h1]
  show (1 : ℚ) ≠ ((2 : ℕ) : ℚ) / ((4 : ℕ) : ℚ)
  norm_num

/-- C3 amended: consensus_strength divides the count of contributing opinions
by the count of REGISTERED models — configured sources that are enabled, have
a non-placeholder key and a recognised name — not by all configured sources;
the quotient lies in [0,1] whenever some model is registered and the
contributing opinions are no more numerous than the registered models. -/
theorem C3_theorem (cfg : Config) (results : List (String × RDict)) :
    (build_contact_consensus cfg (setup_models cfg) results).consensus_strength =
      (results.length : ℚ) / ((setup_models cfg).length : ℚ) ∧
    (setup_models cfg ≠ [] → results.length ≤ (setup_models cfg).length →
      0 ≤ (build_contact_consensus cfg (setup_models cfg) results).consensus_strength ∧
      (build_contact_consensus cfg (setup_models cfg) results).consensus_strength ≤ 1) := by
  refine ⟨rfl, fun hne hle => ?_⟩
  have hpos : 0 < ((setup_models cfg).length : ℚ) := by
    have : 0 < (setup_models cfg).length := List.length_pos.mpr hne
    exact_mod_cast this
  have hcast : (results.length : ℚ) ≤ ((setup_models cfg).length : ℚ) := by
    exact_mod_cast hle
  constructor
  · exact div_nonneg (by positivity) hpos.le
  · rw [show (build_contact_consensus cfg (setup_models cfg) results).consensus_strength =
      (results.length : ℚ) / ((setup_models cfg).length : ℚ) from rfl]
    rw [div_le_one hpos]
    exact hcast

/-- C3 witness: the amended strength bound instantiated on the
partially-registered configuration with two contributing opinions. -/
theorem C3_witness :
    0 ≤ (build_contact_consensus cfgC3 (setup_models cfgC3) rsC3).consensus_strength ∧
    (build_contact_consensus cfgC3 (setup_models cfgC3) rsC3).consensus_strength ≤ 1 :=
  (C3_theorem cfgC3 rsC3).2 (by decide) (by decide)

/-- C4 counterexample: two permutations of the same two website opinions give
different consensus website_url values (w1 versus w2) although the two
distinct values have different summed weights (0.3 versus 0.5) — the
order-dependence of build_company_consensus is not confined to
equal-summed-weight ties. -/
theorem C4_counterexample :
    rsW1.Perm rsW2 ∧
    (build_company_consensus cfg3 rsW1).website_url = some (.s "w1") ∧
    (build_company_consensus cfg3 rsW2).website_url = some (.s "w2") ∧
    (build_company_consensus cfg3 rsW1).website_url ≠
      (build_company_consensus cfg3 rsW2).website_url ∧
    weightOf cfg3 "openai" ≠ weightOf cfg3 "claude" := by
  refine ⟨by decide, rfl, rfl, by decide, ?_⟩
  show (3 : ℚ)/10 ≠ 1/2
  norm_num

/-- C4 amended: the numeric aggregates — contact confidence_score and
consensus_strength, email is_valid_format, business_likelihood and
consensus_confidence, company confidence_score — are invariant under
permutation of the input results; the chosen field values are not in general:
contact scalar fields follow the first opinion of maximal individual weight
and company website_url / linkedin_company_url take the first contributing
value in input order (C4 counterexample), beyond equal-summed-weight ties. -/
theorem C4_theorem (cfg : Config) (models : List String)
    (l1 l2 : List (String × RDict)) (h : l1.Perm l2) :
    (build_contact_consensus cfg models l1).confidence_score =
      (build_contact_consensus cfg models l2).confidence_score ∧
    (build_contact_consensus cfg models l1).consensus_strength =
      (build_contact_consensus cfg models l2).consensus_strength ∧
    (build_email_consensus cfg l1).is_valid_format =
      (build_email_consensus cfg l2).is_valid_format ∧
    (build_email_consensus cfg l1).business_likelihood =
      (build_email_consensus cfg l2).business_likelihood ∧
    (build_email_consensus cfg l1).consensus_confidence =
      (build_email_consensus cfg l2).consensus_confidence ∧
    (build_company_consensus cfg l1).confidence_score =
      (build_company_consensus cfg l2).confidence_score := by
  have htrw : total_result_weight cfg l1 = total_result_weight cfg l2 := by
    show (l1.map (fun p => weightOf cfg p.1)).sum = (l2.map (fun p => weightOf cfg p.1)).sum
    exact (h.map _).sum_eq
  have htw : email_total_weight cfg l1 = email_total_weight cfg l2 := by
    rw [email_total_weight_eq, email_total_weight_eq, htrw]
  have hvv : valid_votes cfg l1 = valid_votes cfg l2 := by
    show (l1.map (fun p => if truthy (emailValidLookup p.2) then weightOf cfg p.1 else 0)).sum =
      (l2.map (fun p => if truthy (emailValidLookup p.2) then weightOf cfg p.1 else 0)).sum
    exact (h.map _).sum_eq
  have hlen : l1.length = l2.length := h.length_eq
  have hterm : ∀ f : RDict → JValue,
      (conf_weighted_terms cfg l1 f).Perm (conf_weighted_terms cfg l2 f) :=
    fun f => h.filterMap _
  have hsum : ∀ f : RDict → JValue,
      (conf_weighted_terms cfg l1 f).sum = (conf_weighted_terms cfg l2 f).sum :=
    fun f => (hterm f).sum_eq
  have hnil : ∀ f : RDict → JValue,
      (conf_weighted_terms cfg l1 f = []) ↔ (conf_weighted_terms cfg l2 f = []) := by
    intro f
    constructor <;> intro hh
    · exact List.Perm.eq_nil ((hterm f).symm.trans (by rw [hh]))
    · exact List.Perm.eq_nil ((hterm f).trans (by rw [hh]))
  refine ⟨?_, ?_, ?_, ?_, ?_, ?_⟩
  · show (if conf_weighted_terms cfg l1 contactConfLookup ≠ [] then
        (conf_weighted_terms cfg l1 contactConfLookup).sum / total_result_weight cfg l1
      else 0) =
      (if conf_weighted_terms cfg l2 contactConfLookup ≠ [] then
        (conf_weighted_terms cfg l2 contactConfLookup).sum / total_result_weight cfg l2
      else 0)
    by_cases hc : conf_weighted_terms cfg l1 contactConfLookup = []
    · rw [if_neg (by simpa using hc), if_neg (by simpa using (hnil contactConfLookup).mp hc)]
    · rw [if_pos (by simpa using hc),
        if_pos (by simpa using fun hh => hc ((hnil contactConfLookup).mpr hh)),
        hsum contactConfLookup, htrw]
  · show (l1.length : ℚ) / (models.length : ℚ) = (l2.length : ℚ) / (models.length : ℚ)
    rw [hlen]
  · show (if 0 < email_total_weight cfg l1 then
        decide (1 / 2 < valid_votes cfg l1 / email_total_weight cfg l1) else false) =
      (if 0 < email_total_weight cfg l2 then
        decide (1 / 2 < valid_votes cfg l2 / email_total_weight cfg l2) else false)
    rw [htw, hvv]
  · show (if 0 < email_total_weight cfg l1 then
        (conf_weighted_terms cfg l1 likelihoodLookup).sum / email_total_weight cfg l1
      else 0) =
      (if 0 < email_total_weight cfg l2 then
        (conf_weighted_terms cfg l2 likelihoodLookup).sum / email_total_weight cfg l2
      else 0)
    rw [htw, hsum likelihoodLookup]
  · show email_total_weight cfg l1 / total_result_weight cfg l1 =
      email_total_weight cfg l2 / total_result_weight cfg l2
    rw [htw, htrw]
  · show (if conf_weighted_terms cfg l1 companyConfLookup ≠ [] then
        (conf_weighted_terms cfg l1 companyConfLookup).sum / (l1.length : ℚ) else 0) =
      (if conf_weighted_terms cfg l2 companyConfLookup ≠ [] then
        (conf_weighted_terms cfg l2 companyConfLookup).sum / (l2.length : ℚ) else 0)
    by_cases hc : conf_weighted_terms cfg l1 companyConfLookup = []
    · rw [if_neg (by simpa using hc), if_neg (by simpa using (hnil companyConfLookup).mp hc)]
    · rw [if_pos (by simpa using hc),
        if_pos (by simpa using fun hh => hc ((hnil companyConfLookup).mpr hh)),
        hsum companyConfLookup, hlen]

/-- C4 witness: permutation invariance of the numeric aggregates instantiated
on the two orderings of the website opinions. -/
theorem C4_witness :
    (build_company_consensus cfg3 rsW1).confidence_score =
      (build_company_consensus cfg3 rsW2).confidence_score ∧
    (build_email_consensus cfg3 rsW1).is_valid_format =
      (build_email_consensus cfg3 rsW2).is_valid_format := by
  have h := C4_theorem cfg3 (setup_models cfg3) rsW1 rsW2 (by decide)
  exact ⟨h.2.2.2.2.2, h.2.2.1⟩

/-- C5: the coordinator's two error returns are distinct and never conflated:
an empty set of registered, task-eligible sources yields the no-models
configuration error, while a nonempty set whose every call fails yields the
distinct no-valid-responses error carrying the per-source failure records and
no consensus value. -/
theorem C5_theorem (cfg : Config) (call : String → AdapterOutcome) :
    (contact_eligible cfg = [] → research_contact_consensus cfg call = .error_no_models) ∧
    (contact_eligible cfg ≠ [] →
      (∀ n ∈ contact_eligible cfg, valid_of (n, call n) = none) →
      research_contact_consensus cfg call =
        .error_no_valid ((contact_eligible cfg).map (fun n => (n, outcome_record (call n))))) ∧
    (∀ rs : List (String × RDict),
      (ContactResearchResult.error_no_models : ContactResearchResult) ≠
        .error_no_valid rs) := by
  refine ⟨?_, ?_, ?_⟩
  · intro h
    simp [research_contact_consensus, h]
  · intro hne hall
    have hval : (((contact_eligible cfg).map (fun n => (n, call n))).filterMap valid_of) = [] := by
      rw [List.filterMap_map]
      exact List.filterMap_eq_nil_iff.mpr (fun n hn => hall n hn)
    simp only [research_contact_consensus]
    rw [if_neg (by simpa [List.isEmpty_iff] using hne), if_pos (by simpa [List.isEmpty_iff] using hval)]
    simp [List.map_map, Function.comp]
  · intro rs
    simp

/-- C5 witness: the configuration whose only source is eligible for no task
gives the no-models error, and a full configuration whose every call raises
gives the no-valid-responses error with one failure record per source. -/
theorem C5_witness :
    research_contact_consensus cfgNoTask callFail = .error_no_models ∧
    research_contact_consensus cfg3 callFail =
      .error_no_valid ((contact_eligible cfg3).map
        (fun n => (n, outcome_record (callFail n)))) := by
  constructor
  · exact (C5_theorem cfgNoTask callFail).1 (by decide)
  · exact (C5_theorem cfg3 callFail).2.1 (by decide) (by decide)

/-- C6: every branch of the adapter model returns a value — transport
failures and parse failures come back as error dicts, never as a raised
fault — and the coordinator records one outcome per selected source, each
determined only by that source's own call, so failures neither cancel nor
lose the other sources' results. -/
theorem C6_theorem :
    (∀ (parse : RDict → Except String RDict) (nm e : String),
      adapter_research_contact (.error e) parse nm = [("error", .s e)]) ∧
    (∀ (parse : RDict → Except String RDict) (nm : String) (r : RDict),
      hasKey r "error" = true → adapter_research_contact (.ok r) parse nm = r) ∧
    (∀ (parse : RDict → Except String RDict) (nm : String) (r : RDict) (e : String),
      hasKey r "error" = false → parse r = .error e →
      adapter_research_contact (.ok r) parse nm =
        [("error", .s ("Parse error: " ++ e))]) ∧
    (∀ (parse : RDict → Except String RDict) (nm : String) (r res : RDict),
      hasKey r "error" = false → parse r = .ok res →
      adapter_research_contact (.ok r) parse nm =
        setKey res "model" (.s ("OpenAI " ++ nm))) ∧
    (∀ (cfg : Config) (call : String → AdapterOutcome),
      contact_eligible cfg ≠ [] →
      result_responses (research_contact_consensus cfg call) =
        some ((contact_eligible cfg).map (fun n => (n, outcome_record (call n))))) := by
  refine ⟨?_, ?_, ?_, ?_, ?_⟩
  · intro parse nm e
    simp [adapter_research_contact, make_request, hasKey]
  · intro parse nm r h
    simp [adapter_research_contact, make_request, h]
  · intro parse nm r e h hp
    simp [adapter_research_contact, make_request, h, hp]
  · intro parse nm r res h hp
    simp [adapter_research_contact, make_request, h, hp]
  · intro cfg call hne
    simp only [research_contact_consensus]
    rw [if_neg (by simpa [List.isEmpty_iff] using hne)]
    by_cases hv : (((contact_eligible cfg).map (fun n => (n, call n))).filterMap valid_of) = []
    · rw [if_pos (by simpa [List.isEmpty_iff] using hv)]
      simp [result_responses, List.map_map, Function.comp]
    · rw [if_neg (by simpa [List.isEmpty_iff] using hv)]
      simp [result_responses, List.map_map, Function.comp]

/-- C6 witness: a transport failure and a parse failure each come back as a
typed error dict, and the coordinator records one entry per eligible source
when every call raises. -/
theorem C6_witness :
    adapter_research_contact (.error "timeout") (fun r => .ok r) "gpt-4" =
      [("error", .s "timeout")] ∧
    adapter_research_contact (.ok [("choices", .s "x")]) (fun _ => .error "bad json") "gpt-4" =
      [("error", .s ("Parse error: " ++ "bad json"))] ∧
    result_responses (research_contact_consensus cfg3 callFail) =
      some ((contact_eligible cfg3).map (fun n => (n, outcome_record (callFail n)))) := by
  refine ⟨C6_theorem.1 (fun r => .ok r) "gpt-4" "timeout", ?_, ?_⟩
  · exact C6_theorem.2.2.1 (fun _ => .error "bad json") "gpt-4" [("choices", .s "x")]
      "bad json" (by decide) rfl
  · exact C6_theorem.2.2.2.2 cfg3 callFail (by decide)

/-- C7: for nonempty email-verification results with weights in (0,1], the
consensus is_valid_format is true exactly when the weight of the opinions
voting true exceeds half the total weight of the opinions actually present. -/
theorem C7_theorem (cfg : Config) (results : List (String × RDict))
    (hne : results ≠ [])
    (hw : ∀ p ∈ results, 0 < weightOf cfg p.1 ∧ weightOf cfg p.1 ≤ 1) :
    (build_email_consensus cfg results).is_valid_format = true ↔
      total_result_weight cfg results / 2 < valid_votes cfg results := by
  have htw : 0 < total_result_weight cfg results :=
    total_result_weight_pos cfg results hne (fun p hp => (hw p hp).1)
  have hetw : email_total_weight cfg results = total_result_weight cfg results :=
    email_total_weight_eq cfg results
  show (if 0 < email_total_weight cfg results then
      decide (1 / 2 < valid_votes cfg results / email_total_weight cfg results)
    else false) = true ↔ _
  rw [hetw, if_pos htw, decide_eq_true_iff, lt_div_iff₀ htw]
  constructor <;> intro h <;> linarith

/-- C7 witness: three votes true 0.3, true 0.5, false 0.2 carry weight 0.8 of
a present total 1.0, so is_valid_format is true. -/
theorem C7_witness :
    (build_email_consensus cfg3 rsEmail).is_valid_format = true ∧
    total_result_weight cfg3 rsEmail / 2 < valid_votes cfg3 rsEmail := by
  have h1 : total_result_weight cfg3 rsEmail = 3/10 + (1/2 + (1/5 + 0)) := rfl
  have h2 : valid_votes cfg3 rsEmail = 3/10 + (1/2 + (0 + 0)) := rfl
  have hlt : total_result_weight cfg3 rsEmail / 2 < valid_votes cfg3 rsEmail := by
    rw [h1, h2]
    norm_num
  exact ⟨(C7_theorem cfg3 rsEmail (by decide) rsEmail_weights).mpr hlt, hlt⟩

/-- C8: the schema reconciliation takes, for each canonical field, the first
alias key present with a truthy value and never consults later aliases; a
single-opinion contact consensus returns exactly the alias-resolved job_title;
and the payload with probable_title VP Sales and title Director resolves
job_title to VP Sales. -/
theorem C8_theorem :
    (∀ (r : RDict) (ks₁ ks₂ : List String) (k : String) (v : JValue),
      (∀ k2 ∈ ks₁, ∀ v2, lookupKey r k2 = some v2 → truthy v2 = false) →
      lookupKey r k = some v → truthy v = true →
      firstTruthyAlias r (ks₁ ++ k :: ks₂) = some v) ∧
    (∀ (cfg : Config) (models : List String) (n : String) (r : RDict),
      (build_contact_consensus cfg models [(n, r)]).job_title =
        firstTruthyAlias r ["job_title", "probable_title", "title"]) ∧
    firstTruthyAlias rVP ["job_title", "probable_title", "title"] = some (.s "VP Sales") := by
  refine ⟨?_, ?_, rfl⟩
  · intro r ks₁ ks₂ k v hks hk hv
    induction ks₁ with
    | nil => simp [firstTruthyAlias, hk, hv]
    | cons k2 ks ih =>
      have hnot := hks k2 (List.mem_cons_self _ _)
      cases hl : lookupKey r k2 with
      | none =>
        simp only [List.cons_append, firstTruthyAlias, hl]
        exact ih (fun k3 h3 => hks k3 (List.mem_cons_of_mem _ h3))
      | some v2 =>
        simp only [List.cons_append, firstTruthyAlias, hl, hnot v2 hl, if_neg]
        simpa [hnot v2 hl] using ih (fun k3 h3 => hks k3 (List.mem_cons_of_mem _ h3))
  · intro cfg models n r
    show fieldConsensus cfg [(n, r)] ["job_title", "probable_title", "title"] =
      firstTruthyAlias r ["job_title", "probable_title", "title"]
    cases halias : firstTruthyAlias r ["job_title", "probable_title", "title"] with
    | none => simp [fieldConsensus, field_responses, halias, pyMax]
    | some v => simp [fieldConsensus, field_responses, halias, pyMax]

/-- C8 witness: the general first-truthy-alias rule instantiated on the
job_title alias chain over the VP Sales payload. -/
theorem C8_witness :
    firstTruthyAlias rVP (["job_title"] ++ "probable_title" :: ["title"]) =
      some (.s "VP Sales") :=
  C8_theorem.1 rVP ["job_title"] ["title"] "probable_title" (.s "VP Sales")
    (by decide) rfl rfl

/-- C9: each set-valued company consensus field is a duplicate-free list of
elements contributed by some opinion, capped at 5 pain points, 3
opportunities and 5 target titles, and contains every contributed element
whenever the full de-duplicated union fits under the cap. -/
theorem C9_theorem (cfg : Config) (results : List (String × RDict)) :
    ((build_company_consensus cfg results).pain_points.Nodup ∧
      (build_company_consensus cfg results).pain_points.length ≤ 5 ∧
      (∀ x ∈ (build_company_consensus cfg results).pain_points,
        ∃ p ∈ results, x ∈ listLookup p.2 painKeys) ∧
      ((union_lists results painKeys).length ≤ 5 → ∀ p ∈ results,
        ∀ x ∈ listLookup p.2 painKeys,
          x ∈ (build_company_consensus cfg results).pain_points)) ∧
    ((build_company_consensus cfg results).yardi_opportunities.Nodup ∧
      (build_company_consensus cfg results).yardi_opportunities.length ≤ 3 ∧
      (∀ x ∈ (build_company_consensus cfg results).yardi_opportunities,
        ∃ p ∈ results, x ∈ listLookup p.2 oppKeys) ∧
      ((union_lists results oppKeys).length ≤ 3 → ∀ p ∈ results,
        ∀ x ∈ listLookup p.2 oppKeys,
          x ∈ (build_company_consensus cfg results).yardi_opportunities)) ∧
    ((build_company_consensus cfg results).target_decision_makers.Nodup ∧
      (build_company_consensus cfg results).target_decision_makers.length ≤ 5 ∧
      (∀ x ∈ (build_company_consensus cfg results).target_decision_makers,
        ∃ p ∈ results, x ∈ listLookup p.2 titleKeys) ∧
      ((union_lists results titleKeys).length ≤ 5 → ∀ p ∈ results,
        ∀ x ∈ listLookup p.2 titleKeys,
          x ∈ (build_company_consensus cfg results).target_decision_makers)) :=
  ⟨capped_union_spec results painKeys 5, capped_union_spec results oppKeys 3,
    capped_union_spec results titleKeys 5⟩

/-- C9 witness: on the two overlapping pain-point opinions the capped union
is the duplicate-free p1, p2, p3, and membership of p3 traces back to a
contributing opinion. -/
theorem C9_witness :
    ∃ p ∈ rsPain, "p3" ∈ listLookup p.2 painKeys :=
  (C9_theorem cfg3 rsPain).1.2.2.1 "p3" (by decide)

/-- C10: build_email_consensus always reports consensus_confidence exactly 1
for any nonempty results with positive configured weights, because the
accumulated total weight and the normalising sum are the same sum. -/
theorem C10_theorem (cfg : Config) (results : List (String × RDict))
    (hne : results ≠ []) (hw : ∀ p ∈ results, 0 < weightOf cfg p.1) :
    (build_email_consensus cfg results).consensus_confidence = 1 := by
  have htw : 0 < total_result_weight cfg results :=
    total_result_weight_pos cfg results hne hw
  show email_total_weight cfg results / total_result_weight cfg results = 1
  rw [email_total_weight_eq]
  exact div_self htw.ne'

/-- C10 witness: the degenerate consensus_confidence evaluates to 1 on the
three-vote email fixture. -/
theorem C10_witness : (build_email_consensus cfg3 rsEmail).consensus_confidence = 1 :=
  C10_theorem cfg3 rsEmail (by decide) (fun p hp => (rsEmail_weights p hp).1)

end Prism
